import Mathlib

/-!
Verification of the ocifs object-storage filesystem layer.

This file gives a shallow embedding, in Lean 4, of the core logic of the
`ocifs` package (Oracle Cloud Infrastructure filesystem for fsspec):

* the remote-error translator (`errors.py`),
* mount-specifier classification for lake URIs
  (`core.get_mount_type`, `lake_sharing_object_storage_client.validate_mount_scope_entity`),
* the redirect registry and per-operation dispatch of the
  `LakeSharingObjectStorageClient`,
* the directory-cache invalidation cascade and listing fallback of
  `OCIFileSystem` (`invalidate_cache`, `_parent`, `ls`, `_lsdir`),
* the chunked multipart write engine of `OCIFile`
  (`_initiate_upload`, `_upload_chunk`, `commit`).

Bytes are modelled as abstract naturals (`Bytes := List Nat`); the remote
object store, the health endpoint and the mount-resolution backend are
modelled as oracles passed explicitly.  The buffered-file driver
(`write`/`flush`/`close` of fsspec's `AbstractBufferedFile`, which `OCIFile`
extends) is not part of this repository; where it is needed it is modelled
from the spec and marked as such in the doc comment.
-/

namespace Ocifs

/-! ## Association lists: the model of Python dictionaries -/

/-- Lookup in an association list, first match wins (model of `dict.get`). -/
def alookup (k : String) : List (String × β) → Option β
  | [] => none
  | (a, b) :: t => if a = k then some b else alookup k t

/-- Remove every binding of a key (model of `dict.pop(k, None)`). -/
def aerase : List (String × β) → String → List (String × β)
  | [], _ => []
  | kv :: t, k => if kv.1 = k then aerase t k else kv :: aerase t k

/-- Overwrite the binding of a key (model of `dict[k] = v`). -/
def aset (l : List (String × β)) (k : String) (v : β) : List (String × β) :=
  (k, v) :: aerase l k

theorem alookup_aerase_self (l : List (String × β)) (k : String) :
    alookup k (aerase l k) = none := by
  induction l with
  | nil => rfl
  | cons kv t ih =>
      by_cases h : kv.1 = k
      · simpa [aerase, h] using ih
      · simpa [aerase, alookup, h] using ih

theorem alookup_aerase_ne (l : List (String × β)) (k q : String) (h : q ≠ k) :
    alookup q (aerase l k) = alookup q l := by
  induction l with
  | nil => rfl
  | cons kv t ih =>
      by_cases hk : kv.1 = k
      · have hkq : ¬ k = q := fun hh => h hh.symm
        simpa [aerase, alookup, hk, hkq] using ih
      · by_cases hq : kv.1 = q
        · simp [aerase, alookup, hk, hq, h]
        · simpa [aerase, alookup, hk, hq] using ih

theorem alookup_aset_self (l : List (String × β)) (k : String) (v : β) :
    alookup k (aset l k v) = some v := by
  simp [aset, alookup]

theorem alookup_aset_ne (l : List (String × β)) (k q : String) (v : β) (h : q ≠ k) :
    alookup q (aset l k v) = alookup q l := by
  have : k ≠ q := h.symm
  simp [aset, alookup, this, alookup_aerase_ne l k q h]

/-! ## Python string helpers

The path and mount machinery of `core.py` uses `str.rstrip`, `str.split`,
`str.rsplit`, `str.upper`, `in` and `os.path.join`.  They are modelled here
character-wise so that every function evaluates inside the kernel. -/

/-- Model of Python `s.rstrip("/")`. -/
def rstrip_slash (s : String) : String :=
  ((s.toList.reverse.dropWhile (fun c => c = '/')).reverse).asString

/-- Model of Python `s.rsplit("/", 1)[0]` (everything before the last slash);
meaningful only when the string contains a slash. -/
def before_last_slash (s : String) : String :=
  ((((s.toList.reverse).dropWhile (fun c => c ≠ '/')).drop 1).reverse).asString

/-- Model of Python `s.split("@", 1)[1]` (everything after the first at-sign);
meaningful only when the string contains an at-sign. -/
def after_first_at (s : String) : String :=
  ((s.toList.dropWhile (fun c => c ≠ '@')).drop 1).asString

/-- Model of Python `s.upper()`. -/
def pyUpper (s : String) : String :=
  (s.toList.map Char.toUpper).asString

/-- Model of `os.path.join(a, b)` for POSIX paths and two arguments. -/
def os_path_join (a b : String) : String :=
  if b.toList.head? = some '/' then b
  else if a = "" ∨ a.toList.getLast? = some '/' then a ++ b
  else a ++ "/" ++ b

/-- Model of `OCIFileSystem._strip_protocol` (`core.py`).  The fsspec base
implementation strips a leading `oci://` or `ocilake://` and trailing
slashes (the class sets `root_marker = ""`); the override recovers a pure
namespace path `@ns` when stripping yields the empty string but the
original path contains an at-sign. -/
def _strip_protocol (path : String) : String :=
  let l := path.toList
  let l1 := if ("oci://".toList).isPrefixOf l then l.drop 6
            else if ("ocilake://".toList).isPrefixOf l then l.drop 10
            else l
  let stripped := (l1.reverse.dropWhile (fun c => c = '/')).reverse
  if stripped.isEmpty ∧ l.contains '@' then
    "@" ++ after_first_at (rstrip_slash path)
  else stripped.asString

/-- Model of `OCIFileSystem._parent` (`core.py`): strip the trailing slash
and the protocol, then cut at the last `/`; for a bucket-level path cut at
the first `@`; with neither separator the source raises `ValueError`,
modelled as `none`.  The class attribute `root_marker` is `""`. -/
def _parent (path : String) : Option String :=
  let p := _strip_protocol (rstrip_slash path)
  if p.toList.contains '/' then some (before_last_slash p)
  else if p.toList.contains '@' then some ("@" ++ after_first_at p)
  else none

/-! ## C9: the remote-error translator (`ocifs/errors.py`) -/

/-- Errno constants used by `errors.py` (`errno` module values on Linux). -/
def EINVAL : Nat := 22

/-- Errno constant `EPERM`. -/
def EPERM : Nat := 1

/-- Errno constant `EBUSY`. -/
def EBUSY : Nat := 16

/-- Errno constant `ENOSYS`. -/
def ENOSYS : Nat := 38

/-- Errno constant `EIO`. -/
def EIO : Nat := 5

/-- Errno constant `EREMOTEIO` (the source falls back to `EIO` on systems
without it; the Linux value is used here). -/
def EREMOTEIO : Nat := 121

/-- Constructor descriptor for an entry of `ERROR_CODE_TO_EXCEPTION`:
either `functools.partial(IOError, errno)`, or `PermissionError`, or
`FileNotFoundError`. -/
inductive ExcCtor where
  | ioErr (err : Nat)
  | permErr
  | notFoundErr
  deriving DecidableEq, Repr

/-- The exception taxonomy produced by the translator: an `IOError` with an
errno, a `PermissionError`, or a `FileNotFoundError`, each carrying a
message. -/
inductive OciExc where
  | ioError (err : Nat) (msg : String)
  | permissionError (msg : String)
  | fileNotFoundError (msg : String)
  deriving DecidableEq, Repr

/-- Apply a constructor descriptor to a message. -/
def applyCtor : ExcCtor → String → OciExc
  | ExcCtor.ioErr e, m => OciExc.ioError e m
  | ExcCtor.permErr, m => OciExc.permissionError m
  | ExcCtor.notFoundErr, m => OciExc.fileNotFoundError m

/-- The dictionary `ERROR_CODE_TO_EXCEPTION` of `errors.py`, in source
order. -/
def ERROR_CODE_TO_EXCEPTION : List (String × ExcCtor) :=
  [ ("CannotParseRequest", ExcCtor.ioErr EINVAL),
    ("InvalidParameter", ExcCtor.ioErr EINVAL),
    ("LimitExceeded", ExcCtor.ioErr EINVAL),
    ("MissingParameter", ExcCtor.ioErr EINVAL),
    ("QuotaExceeded", ExcCtor.ioErr EINVAL),
    ("RelatedResourceNotAuthorizedOrNotFound", ExcCtor.ioErr EINVAL),
    ("NotAuthenticated", ExcCtor.permErr),
    ("SignUpRequired", ExcCtor.permErr),
    ("NotAuthorized", ExcCtor.permErr),
    ("NotAuthorizedOrNotFound", ExcCtor.notFoundErr),
    ("NotFound", ExcCtor.notFoundErr),
    ("MethodNotAllowed", ExcCtor.ioErr EPERM),
    ("IncorrectState", ExcCtor.ioErr EBUSY),
    ("InvalidatedRetryToken", ExcCtor.ioErr EBUSY),
    ("NotAuthorizedOr ResourceAlreadyExists", ExcCtor.ioErr EBUSY),
    ("NotAuthorizedOrResourceAlreadyExists", ExcCtor.ioErr EBUSY),
    ("NoEtagMatch", ExcCtor.ioErr EINVAL),
    ("TooManyRequests", ExcCtor.ioErr EBUSY),
    ("InternalServerError", ExcCtor.ioErr EREMOTEIO),
    ("MethodNotImplemented", ExcCtor.ioErr ENOSYS),
    ("ServiceUnavailable", ExcCtor.ioErr EBUSY),
    ("400", ExcCtor.ioErr EINVAL),
    ("401", ExcCtor.permErr),
    ("402", ExcCtor.permErr),
    ("403", ExcCtor.permErr),
    ("404", ExcCtor.notFoundErr),
    ("405", ExcCtor.ioErr EPERM),
    ("409", ExcCtor.ioErr EBUSY),
    ("412", ExcCtor.ioErr EINVAL),
    ("429", ExcCtor.ioErr EBUSY),
    ("500", ExcCtor.ioErr EREMOTEIO),
    ("501", ExcCtor.ioErr ENOSYS),
    ("503", ExcCtor.ioErr EBUSY) ]

/-- Model of `oci.exceptions.ServiceError` as consumed by the translator: a
backend error code, an HTTP status, an optional server message, and the
string rendering `str(error)`.  The translator first checks that the error
has `code` and `status` attributes; errors of this shape always do. -/
structure ServiceError where
  code : String
  status : Nat
  message : Option String
  strRepr : String
  deriving DecidableEq, Repr

/-- Model of `translate_oci_error(error, message=None)` from `errors.py`:
look the backend code up in `ERROR_CODE_TO_EXCEPTION`, falling back to the
stringified HTTP status; with no match, return an `IOError(errno.EIO, ...)`
carrying the original message. -/
def translate_oci_error (error : ServiceError) (message : Option String) : OciExc :=
  match (alookup error.code ERROR_CODE_TO_EXCEPTION).orElse
      (fun _ => alookup (toString error.status) ERROR_CODE_TO_EXCEPTION) with
  | none => OciExc.ioError EIO (message.getD error.strRepr)
  | some ctor =>
      let msg := match message with
        | some m => m
        | none => match error.message with
          | some m => m
          | none => error.strRepr
      applyCtor ctor msg

/-! ## C5: mount-specifier classification (`core.get_mount_type` and
`lake_sharing_object_storage_client.validate_mount_scope_entity`) -/

/-- Uppercased second segment of a mount specifier, Python
`mount_spec[1].upper()` (the callers guard the index). -/
def mount_entity (spec : List String) : String :=
  pyUpper ((spec.get? 1).getD "")

/-- Model of `core.get_mount_type`: one segment is EXTERNAL; three or four
segments whose second segment uppercases to DATABASE, TABLE or USER are
MANAGED; anything else yields `None`. -/
def get_mount_type (mount_spec : List String) : Option String :=
  if mount_spec.length = 1 then some "EXTERNAL"
  else if 3 ≤ mount_spec.length ∧ mount_spec.length ≤ 4 then
    if mount_entity mount_spec = "DATABASE" ∨ mount_entity mount_spec = "TABLE" ∨
        mount_entity mount_spec = "USER" then some "MANAGED"
    else none
  else none

/-- Model of `validate_mount_scope_entity` from
`lake_sharing_object_storage_client.py`: the scope entity must be one of
DATABASE, TABLE, USER, and the segment count must be exactly 3, 4, 3
respectively; each failing check raises `ValueError`. -/
def validate_mount_scope_entity (arr : List String) : Except String Unit :=
  if ¬ (mount_entity arr = "DATABASE" ∨ mount_entity arr = "TABLE" ∨
      mount_entity arr = "USER") then
    Except.error "Invalid value for mount_scope_entity_type, must be one of DATABASE, TABLE, USER"
  else if mount_entity arr = "DATABASE" ∧ arr.length ≠ 3 then
    Except.error "DATABASE mount mentioned in ocifs URI is invalid"
  else if mount_entity arr = "TABLE" ∧ arr.length ≠ 4 then
    Except.error "TABLE mount mentioned in ocifs URI is invalid"
  else if mount_entity arr = "USER" ∧ arr.length ≠ 3 then
    Except.error "USER mount mentioned in ocifs URI is invalid"
  else Except.ok ()

/-- Result of classifying a mount specifier. -/
inductive MountClass where
  | external
  | managed (entityType : String)
  deriving DecidableEq, Repr

/-- Classification of a mount specifier as performed by
`OCIFileSystem.split_path`: `get_mount_type` decides EXTERNAL versus
MANAGED (raising `ValueError` when it returns `None`), and for a MANAGED
mount `get_bucket_namespace_for_given_mount_name` first runs
`validate_mount_scope_entity`. -/
def classify_mount (spec : List String) : Except String MountClass :=
  match get_mount_type spec with
  | none => Except.error "mount path mentioned in ocifs URI is invalid"
  | some mt =>
      if mt = "MANAGED" then
        match validate_mount_scope_entity spec with
        | Except.error e => Except.error e
        | Except.ok _ => Except.ok (MountClass.managed (mount_entity spec))
      else Except.ok MountClass.external

/-- C9: for every remote error, the translator maps its backend code or,
failing that, its HTTP status to exactly one exception kind of the fixed
taxonomy `ERROR_CODE_TO_EXCEPTION`; when both the code and the status are
unrecognized it returns an unclassified remote-IO error — an `IOError`
with errno `EIO` — carrying the original error message. -/
theorem translate_error_taxonomy (e : ServiceError) (message : Option String) :
    (∀ ctor, alookup e.code ERROR_CODE_TO_EXCEPTION = some ctor →
      translate_oci_error e message =
        applyCtor ctor (message.getD (e.message.getD e.strRepr))) ∧
    (alookup e.code ERROR_CODE_TO_EXCEPTION = none →
      ∀ ctor, alookup (toString e.status) ERROR_CODE_TO_EXCEPTION = some ctor →
      translate_oci_error e message =
        applyCtor ctor (message.getD (e.message.getD e.strRepr))) ∧
    (alookup e.code ERROR_CODE_TO_EXCEPTION = none →
      alookup (toString e.status) ERROR_CODE_TO_EXCEPTION = none →
      translate_oci_error e message = OciExc.ioError EIO (message.getD e.strRepr)) := by
  refine ⟨?_, ?_, ?_⟩
  · intro ctor hc
    simp only [translate_oci_error, hc, Option.orElse]
    cases message with
    | some m => simp
    | none =>
        cases hm : e.message with
        | some m => simp [hm]
        | none => simp [hm]
  · intro hc ctor hs
    simp only [translate_oci_error, hc, hs, Option.orElse]
    cases message with
    | some m => simp
    | none =>
        cases hm : e.message with
        | some m => simp [hm]
        | none => simp [hm]
  · intro hc hs
    simp [translate_oci_error, hc, hs, Option.orElse]

/-- Witness for C9: the unrecognized code `ZebraError` with unrecognized
status 418 translates to `IOError(EIO, str(error))`. -/
theorem translate_error_taxonomy_witness :
    translate_oci_error
      { code := "ZebraError", status := 418, message := none, strRepr := "boom" }
      none = OciExc.ioError EIO "boom" := by
  exact (translate_error_taxonomy
      { code := "ZebraError", status := 418, message := none, strRepr := "boom" }
      none).2.2 (by decide) (by decide)

/-- C5: a mount specifier with exactly one colon-separated segment is an
EXTERNAL mount; 3 or 4 segments whose second segment uppercases to
DATABASE, TABLE or USER yield a MANAGED mount, with DATABASE requiring
exactly 3 segments, TABLE exactly 4 and USER exactly 3; every other shape
is rejected with an invalid-URI or invalid-value error. -/
theorem mount_scope_classification (spec : List String) :
    (classify_mount spec = Except.ok MountClass.external ↔ spec.length = 1) ∧
    (∀ t, classify_mount spec = Except.ok (MountClass.managed t) ↔
      (t = mount_entity spec ∧
        ((spec.length = 3 ∧
            (mount_entity spec = "DATABASE" ∨ mount_entity spec = "USER")) ∨
         (spec.length = 4 ∧ mount_entity spec = "TABLE")))) ∧
    ((∃ err, classify_mount spec = Except.error err) ↔
      ¬ (spec.length = 1 ∨
         (spec.length = 3 ∧
            (mount_entity spec = "DATABASE" ∨ mount_entity spec = "USER")) ∨
         (spec.length = 4 ∧ mount_entity spec = "TABLE"))) := by
  by_cases h1 : spec.length = 1
  · refine ⟨by simp [classify_mount, get_mount_type, h1], ?_, ?_⟩
    · intro t
      simp [classify_mount, get_mount_type, h1]
    · simp [classify_mount, get_mount_type, h1]
  · by_cases h34 : 3 ≤ spec.length ∧ spec.length ≤ 4
    · by_cases hD : mount_entity spec = "DATABASE"
      · by_cases h3 : spec.length = 3
        · refine ⟨?_, ?_, ?_⟩
          · simp [classify_mount, get_mount_type, validate_mount_scope_entity,
              hD, h3, h1, h34]
          · intro t
            simp [classify_mount, get_mount_type, validate_mount_scope_entity,
              hD, h3, h1, h34, eq_comm]
          · simp [classify_mount, get_mount_type, validate_mount_scope_entity,
              hD, h3, h1, h34]
        · refine ⟨?_, ?_, ?_⟩ <;>
            simp [classify_mount, get_mount_type, validate_mount_scope_entity,
              hD, h3, h1, h34]
      · by_cases hT : mount_entity spec = "TABLE"
        · by_cases h4 : spec.length = 4
          · refine ⟨?_, ?_, ?_⟩
            · simp [classify_mount, get_mount_type, validate_mount_scope_entity,
                hT, h4, h1, h34, hD]
            · intro t
              simp [classify_mount, get_mount_type, validate_mount_scope_entity,
                hT, h4, h1, h34, hD, eq_comm]
            · simp [classify_mount, get_mount_type, validate_mount_scope_entity,
                hT, h4, h1, h34, hD]
          · refine ⟨?_, ?_, ?_⟩ <;>
              simp [classify_mount, get_mount_type, validate_mount_scope_entity,
                hT, h4, h1, h34, hD]
        · by_cases hU : mount_entity spec = "USER"
          · by_cases h3 : spec.length = 3
            · refine ⟨?_, ?_, ?_⟩
              · simp [classify_mount, get_mount_type, validate_mount_scope_entity,
                  hU, h3, h1, h34, hD, hT]
              · intro t
                simp [classify_mount, get_mount_type, validate_mount_scope_entity,
                  hU, h3, h1, h34, hD, hT, eq_comm]
              · simp [classify_mount, get_mount_type, validate_mount_scope_entity,
                  hU, h3, h1, h34, hD, hT]
            · refine ⟨?_, ?_, ?_⟩ <;>
                simp [classify_mount, get_mount_type, validate_mount_scope_entity,
                  hU, h3, h1, h34, hD, hT]
          · refine ⟨?_, ?_, ?_⟩ <;>
              simp [classify_mount, get_mount_type, h1, h34, hD, hT, hU]
    · refine ⟨?_, ?_, ?_⟩ <;>
        simp [classify_mount, get_mount_type, h1, h34] <;> omega

/-- Witness for C5: `m:database:d1` is a valid MANAGED DATABASE mount,
while `m:table:d1` (three segments with TABLE scope) and `m:weird:x`
(unknown scope) are rejected. -/
theorem mount_scope_classification_witness :
    classify_mount ["m", "database", "d1"] = Except.ok (MountClass.managed "DATABASE") ∧
    (∃ err, classify_mount ["m", "table", "d1"] = Except.error err) ∧
    (∃ err, classify_mount ["m", "weird", "x"] = Except.error err) := by
  refine ⟨?_, ?_, ?_⟩
  · exact ((mount_scope_classification ["m", "database", "d1"]).2.1 "DATABASE").mpr
      (by constructor <;> decide)
  · exact (mount_scope_classification ["m", "table", "d1"]).2.2.mpr (by decide)
  · exact (mount_scope_classification ["m", "weird", "x"]).2.2.mpr (by decide)

/-! ## C4 and C8: the redirection registry
(`lake_sharing_object_storage_client.py`) -/

/-- A lake-sharing client as observed by the registry: the endpoint it was
built against and the result of its one-time `is_healthy()` check. -/
structure SharingClient where
  endpoint : String
  healthy : Bool
  deriving DecidableEq, Repr

/-- The mutable maps of `LakeSharingObjectStorageClient.__init__`:
`lake_ocid_to_lake_sharing_client_map`, `lake_ocid_to_lake_client_map`
(clients modelled by their endpoint string) and
`bucket_namespace_to_lake_ocid_map`. -/
structure LakeRegistry where
  lakeToSharing : List (String × SharingClient)
  lakeToLakeClient : List (String × String)
  bucketNsToLake : List (String × String)
  deriving DecidableEq, Repr

/-- The empty registry, as set up by `__init__`. -/
def LakeRegistry.empty : LakeRegistry :=
  { lakeToSharing := [], lakeToLakeClient := [], bucketNsToLake := [] }

/-- Python `str.split` with a one-character separator, char-wise: empty
pieces are kept, and the empty string splits to one empty piece. -/
def split_on_char (c : Char) : List Char → List (List Char)
  | [] => [[]]
  | a :: t =>
      if a = c then [] :: split_on_char c t
      else
        match split_on_char c t with
        | [] => [[a]]
        | g :: gs => (a :: g) :: gs

/-- Model of `get_lake_service_endpoint`: splice the realm segment
(`lake_ocid.split(".")[3]`) into the lake API endpoint.  For a lake OCID
with fewer than four dot-separated segments the indexing raises
`IndexError`, modelled as `none`. -/
def get_lake_service_endpoint (lake_ocid : String) : Option String :=
  ((split_on_char '.' lake_ocid.toList).get? 3).map
    (fun realm => "https://lake." ++ realm.asString ++ ".oci.oraclecloud.com")

/-- Model of `is_lakehouse_managed_bucket`: the pair is managed exactly
when `namespace-bucket` has a binding in the bucket-namespace map. -/
def is_lakehouse_managed_bucket (reg : LakeRegistry) (namespace_name bucket_name : String) :
    Bool :=
  (alookup (namespace_name ++ "-" ++ bucket_name) reg.bucketNsToLake).isSome

/-- Model of `get_lake_sharing_client`: return the cached client for the
lake OCID if present; otherwise build a client for the realm's sharing
endpoint (`endpointOf`), health-check it once (`healthOf`), cache it only
if healthy, and return it either way. -/
def get_lake_sharing_client (endpointOf : String → String) (healthOf : String → Bool)
    (reg : LakeRegistry) (lake_ocid : String) : SharingClient × LakeRegistry :=
  match alookup lake_ocid reg.lakeToSharing with
  | some c => (c, reg)
  | none =>
      let c : SharingClient :=
        { endpoint := endpointOf lake_ocid, healthy := healthOf (endpointOf lake_ocid) }
      if c.healthy then
        (c, { reg with lakeToSharing := aset reg.lakeToSharing lake_ocid c })
      else (c, reg)

/-- Backend response of `lake_client.get_lakehouse_mount`. -/
structure MountResponse where
  status : Nat
  namespaceName : String
  bucketName : String
  deriving DecidableEq, Repr

/-- Resolution steps of `get_bucket_namespace_for_given_mount_name` that
run after scope validation: compute the lake service endpoint (the
unconditional `get_lake_service_endpoint(lake_ocid)` call, whose
`IndexError` on a malformed OCID aborts the resolution before anything is
stored), memoize the per-realm lake client, obtain the sharing client,
store the returned client into the lake-OCID map unconditionally, resolve
the mount, and on status 200 record `namespace-bucket -> lake_ocid`. -/
def resolve_mount_after_validation (endpointOf : String → String)
    (healthOf : String → Bool) (mountLookup : String → String → MountResponse)
    (reg : LakeRegistry) (lake_ocid : String) (mount_name : String) :
    Except String ((String × String) × LakeRegistry) :=
  match get_lake_service_endpoint lake_ocid with
  | none => Except.error "IndexError: list index out of range"
  | some ep =>
    let reg1 :=
      if (alookup lake_ocid reg.lakeToLakeClient).isSome then reg
      else { reg with lakeToLakeClient := aset reg.lakeToLakeClient lake_ocid ep }
    let cr := get_lake_sharing_client endpointOf healthOf reg1 lake_ocid
    let reg2 := { cr.2 with lakeToSharing := aset cr.2.lakeToSharing lake_ocid cr.1 }
    let resp := mountLookup lake_ocid mount_name
    if resp.status = 200 then
      Except.ok ((resp.bucketName, resp.namespaceName),
        { reg2 with bucketNsToLake := aset reg2.bucketNsToLake (resp.namespaceName ++ "-" ++ resp.bucketName) lake_ocid })
    else Except.error "Invalid value given for mountName or lakeOcid. Please check"

/-- Model of `get_bucket_namespace_for_given_mount_name`: for a MANAGED
mount first run `validate_mount_scope_entity`, then perform the resolution
steps of `resolve_mount_after_validation`. -/
def get_bucket_namespace_for_given_mount_name (endpointOf : String → String)
    (healthOf : String → Bool) (mountLookup : String → String → MountResponse)
    (reg : LakeRegistry) (lake_ocid : String) (mount_spec_array : List String)
    (mount_type : String) : Except String ((String × String) × LakeRegistry) :=
  match (if mount_type = "MANAGED" then validate_mount_scope_entity mount_spec_array
         else Except.ok ()) with
  | Except.error e => Except.error e
  | Except.ok _ =>
      resolve_mount_after_validation endpointOf healthOf mountLookup reg lake_ocid
        ((mount_spec_array.get? 0).getD "")

/-- The storage operations that `LakeSharingObjectStorageClient` overrides
with a managed-bucket check. -/
inductive StorageOp where
  | getObject
  | headObject
  | putObject
  | deleteObject
  | listObjects
  | createMultipartUpload
  | uploadPart
  | commitMultipartUpload
  | abortMultipartUpload
  deriving DecidableEq, Repr

/-- The PAR access type requested for an operation (`READ` for
get/head/list, `WRITE` for the mutating and multipart operations). -/
def parScope : StorageOp → String
  | StorageOp.getObject => "READ"
  | StorageOp.headObject => "READ"
  | StorageOp.listObjects => "READ"
  | _ => "WRITE"

/-- One backend interaction of an overridden operation. -/
inductive BackendCall where
  | direct (op : StorageOp)
  | generatePar (scope : String)
  | viaPar (op : StorageOp)
  | sharingDelete
  deriving DecidableEq, Repr

/-- Model of the dispatch pattern shared by every overridden storage
operation of `LakeSharingObjectStorageClient`: when
`is_lakehouse_managed_bucket` is false, delegate to the direct
`ObjectStorageClient` method; otherwise request a capability token and
issue the call through the PAR resource path (`delete_object` instead
delegates to the sharing client). -/
def dispatch_storage_op (reg : LakeRegistry) (namespace_name bucket_name : String)
    (op : StorageOp) : List BackendCall :=
  if is_lakehouse_managed_bucket reg namespace_name bucket_name then
    match op with
    | StorageOp.deleteObject => [BackendCall.sharingDelete]
    | _ => [BackendCall.generatePar (parScope op), BackendCall.viaPar op]
  else [BackendCall.direct op]

/-- C4: for every bucket-namespace pair absent from the redirect registry
map, every storage operation is dispatched to the direct
`ObjectStorageClient` and no capability token is ever requested
(`generate_par` is not called). -/
theorem direct_dispatch_of_unmanaged (reg : LakeRegistry)
    (namespace_name bucket_name : String) (op : StorageOp)
    (h : alookup (namespace_name ++ "-" ++ bucket_name) reg.bucketNsToLake = none) :
    dispatch_storage_op reg namespace_name bucket_name op = [BackendCall.direct op] ∧
    ∀ scope, BackendCall.generatePar scope ∉
      dispatch_storage_op reg namespace_name bucket_name op := by
  have hm : is_lakehouse_managed_bucket reg namespace_name bucket_name = false := by
    simp [is_lakehouse_managed_bucket, h]
  refine ⟨?_, ?_⟩
  · simp [dispatch_storage_op, hm]
  · intro scope
    simp [dispatch_storage_op, hm]

/-- Witness for C4: on an empty registry, `get_object` for `bkt@ns` goes
to the direct client with no PAR request. -/
theorem direct_dispatch_of_unmanaged_witness :
    dispatch_storage_op LakeRegistry.empty "ns" "bkt" StorageOp.getObject =
      [BackendCall.direct StorageOp.getObject] ∧
    ∀ scope, BackendCall.generatePar scope ∉
      dispatch_storage_op LakeRegistry.empty "ns" "bkt" StorageOp.getObject :=
  direct_dispatch_of_unmanaged LakeRegistry.empty "ns" "bkt" StorageOp.getObject (by rfl)

/-- C8 counterexample: the claim that the sharing client is cached only if
its health check succeeds — so that every client stored in the
lake-OCID-to-sharing-client map is healthy — is false at a concrete input:
for a well-formed lake OCID (four dot-separated segments, so that
`get_lake_service_endpoint` does not raise), with a health oracle
answering unhealthy, one successful mount resolution stores the unhealthy
client in the map. -/
theorem sharing_client_health_counterexample :
    ∃ pr : (String × String) × LakeRegistry,
      get_bucket_namespace_for_given_mount_name (fun _ => "ep") (fun _ => false)
          (fun _ _ => { status := 200, namespaceName := "ns", bucketName := "bkt" })
          LakeRegistry.empty "ocid1.lake.oc1.iad.x" ["m"] "EXTERNAL" = Except.ok pr ∧
      ¬ (∀ k c, alookup k pr.2.lakeToSharing = some c → c.healthy = true) := by
  refine ⟨_, rfl, fun hall => ?_⟩
  have h := hall "ocid1.lake.oc1.iad.x" { endpoint := "ep", healthy := false } rfl
  exact Bool.false_ne_true h

/-- C8 (amended): inside `get_lake_sharing_client` the health check guards
the cache — the sharing-client map is unchanged unless the freshly built
client is healthy, and every binding of the resulting map is healthy or
was present before.  However, mount resolution
(`get_bucket_namespace_for_given_mount_name`) then stores the returned
client into the map unconditionally, so when the map had no entry for the
lake OCID and the health check fails, the map afterwards holds the
unhealthy client. -/
theorem sharing_client_health_amended (endpointOf : String → String)
    (healthOf : String → Bool) (reg : LakeRegistry) (lake_ocid : String) :
    ((get_lake_sharing_client endpointOf healthOf reg lake_ocid).2.lakeToSharing =
        reg.lakeToSharing ∨
      ((get_lake_sharing_client endpointOf healthOf reg lake_ocid).1.healthy = true ∧
        (get_lake_sharing_client endpointOf healthOf reg lake_ocid).2.lakeToSharing =
          aset reg.lakeToSharing lake_ocid
            (get_lake_sharing_client endpointOf healthOf reg lake_ocid).1)) ∧
    (∀ k c, alookup k
        (get_lake_sharing_client endpointOf healthOf reg lake_ocid).2.lakeToSharing =
        some c → c.healthy = true ∨ alookup k reg.lakeToSharing = some c) ∧
    (∀ mountLookup r reg', alookup lake_ocid reg.lakeToSharing = none →
      healthOf (endpointOf lake_ocid) = false →
      resolve_mount_after_validation endpointOf healthOf mountLookup reg lake_ocid "m" =
        Except.ok (r, reg') →
      alookup lake_ocid reg'.lakeToSharing =
        some { endpoint := endpointOf lake_ocid, healthy := false }) := by
  refine ⟨?_, ?_, ?_⟩
  · by_cases hc : (alookup lake_ocid reg.lakeToSharing).isSome
    · obtain ⟨c, hcc⟩ := Option.isSome_iff_exists.mp hc
      left
      simp [get_lake_sharing_client, hcc]
    · have hcc : alookup lake_ocid reg.lakeToSharing = none :=
        Option.not_isSome_iff_eq_none.mp hc
      by_cases hh : healthOf (endpointOf lake_ocid) = true
      · right
        simp [get_lake_sharing_client, hcc, hh]
      · left
        simp [get_lake_sharing_client, hcc, Bool.eq_false_iff.mpr hh]
  · intro k c hk
    by_cases hc : (alookup lake_ocid reg.lakeToSharing).isSome
    · obtain ⟨c0, hcc⟩ := Option.isSome_iff_exists.mp hc
      right
      simpa [get_lake_sharing_client, hcc] using hk
    · have hcc : alookup lake_ocid reg.lakeToSharing = none :=
        Option.not_isSome_iff_eq_none.mp hc
      by_cases hh : healthOf (endpointOf lake_ocid) = true
      · rw [show (get_lake_sharing_client endpointOf healthOf reg lake_ocid).2.lakeToSharing =
            aset reg.lakeToSharing lake_ocid
              { endpoint := endpointOf lake_ocid, healthy := healthOf (endpointOf lake_ocid) } by
          simp [get_lake_sharing_client, hcc, hh]] at hk
        by_cases hkl : k = lake_ocid
        · left
          subst hkl
          rw [alookup_aset_self] at hk
          cases hk
          exact hh
        · right
          rwa [alookup_aset_ne _ _ _ _ hkl] at hk
      · right
        simpa [get_lake_sharing_client, hcc, Bool.eq_false_iff.mpr hh] using hk
  · intro mountLookup r reg' hnone hfail hok
    have hcl : get_lake_sharing_client endpointOf healthOf reg lake_ocid =
        ({ endpoint := endpointOf lake_ocid, healthy := false }, reg) := by
      simp [get_lake_sharing_client, hnone, hfail]
    cases hep : get_lake_service_endpoint lake_ocid with
    | none =>
        simp only [resolve_mount_after_validation, hep] at hok
        exact Except.noConfusion hok
    | some ep =>
        by_cases hlc : (alookup lake_ocid reg.lakeToLakeClient).isSome
        · simp only [resolve_mount_after_validation, hep, hlc, if_true, hcl] at hok
          by_cases hs : (mountLookup lake_ocid "m").status = 200
          · rw [if_pos hs] at hok
            rw [Except.ok.injEq, Prod.mk.injEq] at hok
            obtain ⟨h1, h2⟩ := hok
            rw [← h2]
            simp [alookup_aset_self]
          · rw [if_neg hs] at hok
            exact Except.noConfusion hok
        · have hclB : get_lake_sharing_client endpointOf healthOf
              { reg with lakeToLakeClient := aset reg.lakeToLakeClient lake_ocid ep }
              lake_ocid =
              ({ endpoint := endpointOf lake_ocid, healthy := false },
                { reg with lakeToLakeClient := aset reg.lakeToLakeClient lake_ocid ep }) := by
            simp [get_lake_sharing_client, hnone, hfail]
          simp only [resolve_mount_after_validation, hep, hlc, Bool.false_eq_true,
            if_false, hclB] at hok
          by_cases hs : (mountLookup lake_ocid "m").status = 200
          · rw [if_pos hs] at hok
            rw [Except.ok.injEq, Prod.mk.injEq] at hok
            obtain ⟨h1, h2⟩ := hok
            rw [← h2]
            simp [alookup_aset_self]
          · rw [if_neg hs] at hok
            exact Except.noConfusion hok

/-- Witness for C8's amended theorem: applied at the empty registry, a
well-formed lake OCID, a failing health oracle and a status-200 mount
backend, the resolution leaves the unhealthy client in the map. -/
theorem sharing_client_health_amended_witness :
    ∃ reg' : LakeRegistry,
      resolve_mount_after_validation (fun _ => "ep") (fun _ => false)
          (fun _ _ => { status := 200, namespaceName := "ns", bucketName := "bkt" })
          LakeRegistry.empty "ocid1.lake.oc1.iad.x" "m" = Except.ok (("bkt", "ns"), reg') ∧
      alookup "ocid1.lake.oc1.iad.x" reg'.lakeToSharing =
        some { endpoint := "ep", healthy := false } := by
  refine ⟨_, rfl, ?_⟩
  exact (sharing_client_health_amended (fun _ => "ep") (fun _ => false)
      LakeRegistry.empty "ocid1.lake.oc1.iad.x").2.2
      (fun _ _ => { status := 200, namespaceName := "ns", bucketName := "bkt" })
      ("bkt", "ns") _ rfl rfl rfl

/-! ## C6: directory-cache invalidation (`OCIFileSystem.invalidate_cache`) -/

/-- Model of `OCIFileSystem.invalidate_cache`: with no path, clear the
whole cache; otherwise strip the protocol and pop both the path and its
parent from the cache.  `_parent` raises `ValueError` for a path with
neither separator, modelled as an error result. -/
def invalidate_cache (dircache : List (String × β)) (path : Option String) :
    Except String (List (String × β)) :=
  match path with
  | none => Except.ok []
  | some p =>
      let sp := _strip_protocol p
      match _parent sp with
      | some q => Except.ok (aerase (aerase dircache sp) q)
      | none => Except.error "the following path does not specify a namespace"

/-- C6: after `invalidate_cache(p)` both the entry for the (stripped) path
and the entry for its parent are absent, every other entry is unchanged,
and `invalidate_cache` with no path empties the whole cache. -/
theorem invalidate_cache_cascade (dircache : List (String × β)) (p par : String)
    (c' : List (String × β)) (hpar : _parent (_strip_protocol p) = some par)
    (hres : invalidate_cache dircache (some p) = Except.ok c') :
    alookup (_strip_protocol p) c' = none ∧
    alookup par c' = none ∧
    (∀ r, r ≠ _strip_protocol p → r ≠ par → alookup r c' = alookup r dircache) ∧
    invalidate_cache dircache (none : Option String) = Except.ok [] := by
  have hc' : c' = aerase (aerase dircache (_strip_protocol p)) par := by
    simp only [invalidate_cache, hpar] at hres
    exact (Except.ok.injEq _ _).mp hres.symm
  subst hc'
  refine ⟨?_, alookup_aerase_self _ _, ?_, rfl⟩
  · by_cases hpp : _strip_protocol p = par
    · rw [hpp]
      exact alookup_aerase_self _ _
    · rw [alookup_aerase_ne _ _ _ (fun hh => hpp hh)]
      exact alookup_aerase_self _ _
  · intro r hr1 hr2
    rw [alookup_aerase_ne _ _ _ hr2, alookup_aerase_ne _ _ _ hr1]

/-- Witness for C6: invalidating `b@ns/k` removes the entries for
`b@ns/k` and `b@ns` and leaves the sibling `b@ns/sib` untouched. -/
theorem invalidate_cache_cascade_witness :
    invalidate_cache [("b@ns/k", 1), ("b@ns", 2), ("b@ns/sib", 3)] (some "b@ns/k") =
      Except.ok [("b@ns/sib", 3)] ∧
    alookup "b@ns/k" [("b@ns/sib", (3 : Nat))] = none ∧
    alookup "b@ns" [("b@ns/sib", (3 : Nat))] = none ∧
    alookup "b@ns/sib" [("b@ns/sib", (3 : Nat))] = some 3 := by
  have h := invalidate_cache_cascade
      [("b@ns/k", (1 : Nat)), ("b@ns", 2), ("b@ns/sib", 3)] "b@ns/k" "b@ns"
      [("b@ns/sib", 3)] (by decide) rfl
  have hsib := h.2.2.1 "b@ns/sib" (by decide) (by decide)
  exact ⟨rfl, by simpa using h.1, by simpa using h.2.1, by simpa using hsib⟩

/-! ## C7 and C10: directory listings (`OCIFileSystem.ls` and
`OCIFileSystem._lsdir`) -/

/-- A formatted listing entry as produced by `_lsdir` and `_lsbuckets`
(the fields relevant to the listing logic). -/
structure FileEntry where
  name : String
  type : String
  size : Nat
  deriving DecidableEq, Repr

/-- Model of `OCIFileSystem.ls` with `detail=True`, for an already
normalized path.  `listing` is an oracle for `self._ls` (the cached or
remote enumeration): if the direct listing is empty, list the parent and
keep the children whose name minus any trailing slash equals the requested
path and whose type is not directory. -/
def ls_detail (listing : String → List FileEntry) (path : String) :
    Except String (List FileEntry) :=
  let files := listing path
  if files.isEmpty then
    match _parent path with
    | some par =>
        Except.ok ((listing par).filter
          (fun o => rstrip_slash o.name == path && o.type != "directory"))
    | none => Except.error "the following path does not specify a namespace"
  else Except.ok files

/-- C7: when the direct listing of a path is empty, `ls` falls back to the
parent listing and returns exactly the entries whose name minus any
trailing slash equals the path and whose kind is not directory. -/
theorem ls_parent_fallback (listing : String → List FileEntry) (path par : String)
    (hpar : _parent path = some par) (hempty : listing path = []) :
    ls_detail listing path =
      Except.ok ((listing par).filter
        (fun o => rstrip_slash o.name == path && o.type != "directory")) ∧
    ∀ o, o ∈ (listing par).filter
        (fun o => rstrip_slash o.name == path && o.type != "directory") ↔
      (o ∈ listing par ∧ rstrip_slash o.name = path ∧ o.type ≠ "directory") := by
  constructor
  · simp [ls_detail, hempty, hpar]
  · intro o
    simp [List.mem_filter, and_assoc]

/-- Witness for C7: a path whose direct listing is empty recovers exactly
its non-directory twin from the parent listing. -/
theorem ls_parent_fallback_witness :
    ls_detail
      (fun s => if s = "b@ns" then
          [{ name := "b@ns/k", type := "file", size := 1 },
           { name := "b@ns/k", type := "directory", size := 0 },
           { name := "b@ns/other", type := "file", size := 2 }]
        else []) "b@ns/k" =
      Except.ok [{ name := "b@ns/k", type := "file", size := 1 }] := by
  have h := (ls_parent_fallback
      (fun s => if s = "b@ns" then
          [{ name := "b@ns/k", type := "file", size := 1 },
           { name := "b@ns/k", type := "directory", size := 0 },
           { name := "b@ns/other", type := "file", size := 2 }]
        else []) "b@ns/k" "b@ns" (by decide) (by decide)).1
  rw [h]
  rfl

/-- Model of Python `s.endswith("/")`. -/
def endswith_slash (s : String) : Bool :=
  s.toList.getLast? == some '/'

/-- An object summary returned by the remote `list_objects` call (the
fields `_lsdir` inspects). -/
structure ObjSummary where
  name : String
  size : Nat
  deriving DecidableEq, Repr

/-- The formatted file entry `_lsdir` builds for an object. -/
def to_file_entry (full_bucket_name : String) (f : ObjSummary) : FileEntry :=
  { name := os_path_join full_bucket_name f.name, type := "file", size := f.size }

/-- The loop over `results.objects` in `_lsdir`: objects whose name ends
with `/` and whose size is 0 (phantom directory markers, ODSC-38899) are
skipped; every other object becomes a file entry. -/
def formatted_objects (full_bucket_name : String) : List ObjSummary → List FileEntry
  | [] => []
  | f :: rest =>
      if endswith_slash f.name && f.size == 0 then formatted_objects full_bucket_name rest
      else to_file_entry full_bucket_name f :: formatted_objects full_bucket_name rest

/-- Python `p[:-1] if p.endswith("/") else p` used for prefixes. -/
def drop_one_trailing_slash (p : String) : String :=
  if endswith_slash p then (p.toList.dropLast).asString else p

/-- The directory entry `_lsdir` builds for a prefix. -/
def to_dir_entry (full_bucket_name : String) (p : String) : FileEntry :=
  { name := os_path_join full_bucket_name (drop_one_trailing_slash p),
    type := "directory", size := 0 }

/-- The full formatted listing `_lsdir` computes, caches in
`self.dircache[path]` and returns: formatted objects followed by the
prefix directories. -/
def _lsdir_formatted (full_bucket_name : String) (objs : List ObjSummary)
    (prefixes : List String) : List FileEntry :=
  formatted_objects full_bucket_name objs ++ prefixes.map (to_dir_entry full_bucket_name)

theorem formatted_objects_eq_filter (full_bucket_name : String) (objs : List ObjSummary) :
    formatted_objects full_bucket_name objs =
      (objs.filter (fun f => !(endswith_slash f.name && f.size == 0))).map
        (to_file_entry full_bucket_name) := by
  induction objs with
  | nil => rfl
  | cons f rest ih =>
      by_cases h : (endswith_slash f.name && f.size == 0) = true
      · rw [formatted_objects, if_pos h, ih, List.filter_cons]
        simp [h]
      · rw [formatted_objects, if_neg h, ih, List.filter_cons]
        simp [h]

/-- C10: the listing `_lsdir` formats (and caches) contains no entry built
from a phantom directory-marker object — the formatted list equals the
list formatted from the non-phantom objects alone, and every file-typed
entry of the result arises from a non-phantom object. -/
theorem lsdir_omits_phantom (full_bucket_name : String) (objs : List ObjSummary)
    (prefixes : List String) :
    _lsdir_formatted full_bucket_name objs prefixes =
      _lsdir_formatted full_bucket_name
        (objs.filter (fun f => !(endswith_slash f.name && f.size == 0))) prefixes ∧
    (∀ e ∈ _lsdir_formatted full_bucket_name objs prefixes, e.type = "file" →
      ∃ f, f ∈ objs ∧ ¬ (endswith_slash f.name = true ∧ f.size = 0) ∧
        e = to_file_entry full_bucket_name f) := by
  constructor
  · unfold _lsdir_formatted
    rw [formatted_objects_eq_filter, formatted_objects_eq_filter, List.filter_filter]
    simp
  · intro e he hfile
    rcases List.mem_append.mp he with hobj | hdir
    · rw [formatted_objects_eq_filter] at hobj
      rcases List.mem_map.mp hobj with ⟨f, hf, rfl⟩
      rcases List.mem_filter.mp hf with ⟨hfo, hnp⟩
      refine ⟨f, hfo, ?_, rfl⟩
      intro ⟨h1, h2⟩
      simp [h1, h2] at hnp
    · rcases List.mem_map.mp hdir with ⟨pfx, _, rfl⟩
      simp [to_dir_entry] at hfile

/-- Witness for C10: with one phantom object `d/` of size 0, one real
object `a` and one prefix `d/`, the phantom contributes nothing and the
file entry for `a` arises from the non-phantom object. -/
theorem lsdir_omits_phantom_witness :
    ∃ f, f ∈ [{ name := "d/", size := 0 }, { name := "a", size := 3 }] ∧
      ¬ (endswith_slash f.name = true ∧ f.size = 0) ∧
      ({ name := "b@ns/a", type := "file", size := 3 } : FileEntry) =
        to_file_entry "b@ns" f := by
  exact (lsdir_omits_phantom "b@ns"
      [{ name := "d/", size := 0 }, { name := "a", size := 3 }] ["d/"]).2
      { name := "b@ns/a", type := "file", size := 3 } (by decide) (by decide)

/-!
Chunked write engine (claims C1, C2, C3).

`chunkLoop` is translated from the while-loop of `OCIFile._upload_chunk`
(src/ocifs/core.py lines 1409-1444): `data1` is the slice read before the
loop head, `rest` the unread remainder of the buffer, and each iteration
reads the next `blocksize` slice, merges a short non-empty next slice into
the current one (sending the merge as one part when it fits under the
maximum part size, otherwise bisecting it in half), and emits the current
slice as a part. `chunkSpec` is the same chunking stated directly on the
whole buffer; `chunkLoop_eq_chunkSpec` proves the two agree.

The session driver (`writeS`, `flushS`, `closeS`) is the write path of
fsspec's AbstractBufferedFile, whose code is not part of this repository.
Modelled from the spec: `write` appends to the buffer and flushes once the
buffer holds at least one part size; `flush` initiates the upload on first
need and hands the buffer to `_upload_chunk`; `close` is a forced flush,
and with autocommit a final `_upload_chunk` commits. `initiate_upload`,
`upload_chunk`, `commit` and `abort_mpu` are translated from
`OCIFile._initiate_upload`, `OCIFile._upload_chunk` and `OCIFile.commit`
(src/ocifs/core.py lines 1372-1504): bodies of uploaded parts, the
accumulated partNum/etag list, the one-shot put body and the sequence of
object-storage calls are recorded in the `WriteSession` state. Etags are
supplied by an oracle `etagOf` indexed by part number.
-/

abbrev Bytes := List Nat

def chunkLoop (B M : Nat) (data1 rest : Bytes) : List Bytes :=
  if data1.length = 0 then []
  else
    let d1 := rest.take B
    if 0 < d1.length ∧ d1.length < B then
      if B + d1.length ≤ M then [data1 ++ d1]
      else
        (data1 ++ d1).take ((B + d1.length) / 2)
          :: chunkLoop B M ((data1 ++ d1).drop ((B + d1.length) / 2)) (rest.drop B)
    else data1 :: chunkLoop B M d1 (rest.drop B)
termination_by data1.length + rest.length
decreasing_by
  all_goals
    simp only [List.length_drop, List.length_take, List.length_append] at *
    omega

def chunkSpec (B M : Nat) (buf : Bytes) : List Bytes :=
  if B = 0 ∨ buf.length = 0 then []
  else if buf.length ≤ B then [buf]
  else if buf.length < 2 * B then
    if buf.length ≤ M then [buf]
    else [buf.take (buf.length / 2), buf.drop (buf.length / 2)]
  else buf.take B :: chunkSpec B M (buf.drop B)
termination_by buf.length
decreasing_by
  simp only [List.length_drop]
  omega


theorem chunkLoop_eq_chunkSpec (B M : Nat) (hB : 1 ≤ B) (buf : Bytes) :
    chunkLoop B M (buf.take B) (buf.drop B) = chunkSpec B M buf := by
  induction buf using chunkSpec.induct B M with
  | case1 x hx =>
      have hx0 : x = [] := by
        rcases hx with h | h
        · exact absurd h (by omega)
        · exact List.length_eq_zero.mp h
      subst hx0
      simp [chunkLoop, chunkSpec]
  | case2 x hne hle =>
      push_neg at hne
      have hxne : x ≠ [] := fun hh => hne.2 (by simp [hh])
      rw [List.take_of_length_le hle, List.drop_eq_nil_of_le hle]
      simp [chunkLoop, chunkSpec, hne.1, hne.2, hxne, hle]
  | case3 x hne hgt hlt hM =>
      push_neg at hne hgt
      have hd1 : (x.drop B).take B = x.drop B :=
        List.take_of_length_le (by simp; omega)
      have hlen1 : (x.take B).length = B := by simp; omega
      have hlend : (x.drop B).length = x.length - B := by simp
      rw [chunkLoop, if_neg (by omega), hd1]
      rw [if_pos (by constructor <;> simp <;> omega)]
      rw [if_pos (by simp; omega)]
      rw [List.take_append_drop]
      rw [chunkSpec, if_neg (by omega), if_neg (by omega), if_pos hlt, if_pos hM]
  | case4 x hne hgt hlt hM =>
      push_neg at hne hgt hM
      have hd1 : (x.drop B).take B = x.drop B :=
        List.take_of_length_le (by simp; omega)
      have hlen1 : (x.take B).length = B := by simp; omega
      have hsum : B + (x.drop B).length = x.length := by simp; omega
      rw [chunkLoop, if_neg (by omega), hd1]
      rw [if_pos (by constructor <;> simp <;> omega)]
      rw [if_neg (by simp; omega)]
      rw [List.take_append_drop, hsum]
      have hdd : (x.drop B).drop B = [] := by
        rw [List.drop_drop]
        exact List.drop_eq_nil_of_le (by omega)
      rw [hdd]
      have hdrop_ne : (x.drop (x.length / 2)).length ≠ 0 := by simp; omega
      rw [chunkLoop, if_neg hdrop_ne]
      rw [List.take_nil]
      rw [if_neg (by simp)]
      rw [chunkLoop, if_pos (by simp)]
      rw [chunkSpec, if_neg (by omega), if_neg (by omega), if_pos hlt, if_neg (by omega)]
  | case5 x hne hgt hge ih =>
      push_neg at hne hgt hge
      have hlen1 : (x.take B).length = B := by simp; omega
      have hd1len : ((x.drop B).take B).length = B := by simp; omega
      rw [chunkLoop, if_neg (by omega)]
      rw [if_neg (by rw [hd1len]; omega)]
      rw [ih]
      conv_rhs => rw [chunkSpec]
      rw [if_neg (by omega), if_neg (by omega), if_neg (by omega)]

theorem chunkSpec_nil (B M : Nat) : chunkSpec B M [] = [] := by
  rw [chunkSpec]
  simp

theorem chunkSpec_small (B M : Nat) (buf : Bytes) (hne : buf ≠ [])
    (hle : buf.length ≤ B) : chunkSpec B M buf = [buf] := by
  have h0 : buf.length ≠ 0 := by simp [hne]
  rw [chunkSpec, if_neg (by omega), if_pos hle]

theorem chunkSpec_ne_nil (B M : Nat) (hB : 1 ≤ B) (buf : Bytes) (hbuf : buf ≠ []) :
    chunkSpec B M buf ≠ [] := by
  have h0 : buf.length ≠ 0 := by simp [hbuf]
  rw [chunkSpec, if_neg (by omega)]
  split_ifs <;> simp

theorem chunkSpec_flatten (B M : Nat) (hB : 1 ≤ B) (buf : Bytes) :
    (chunkSpec B M buf).flatten = buf := by
  induction buf using chunkSpec.induct B M with
  | case1 x hx =>
      have hx0 : x = [] := by
        rcases hx with h | h
        · exact absurd h (by omega)
        · exact List.length_eq_zero.mp h
      subst hx0
      rw [chunkSpec]
      simp
  | case2 x hne hle =>
      rw [chunkSpec, if_neg hne, if_pos hle]
      simp
  | case3 x hne hgt hlt hM =>
      rw [chunkSpec, if_neg hne, if_neg hgt, if_pos hlt, if_pos hM]
      simp
  | case4 x hne hgt hlt hM =>
      rw [chunkSpec, if_neg hne, if_neg hgt, if_pos hlt, if_neg hM]
      simp
  | case5 x hne hgt hge ih =>
      rw [chunkSpec, if_neg hne, if_neg hgt, if_neg hge]
      simp [ih]

theorem chunkSpec_sizes (B M : Nat) (hB : 1 ≤ B) (hBM : 2 * B ≤ M) (buf : Bytes) :
    ∀ p ∈ chunkSpec B M buf,
      (1 ≤ p.length ∧ p.length ≤ M) ∧ (B ≤ buf.length → B ≤ p.length) := by
  induction buf using chunkSpec.induct B M with
  | case1 x hx =>
      rw [chunkSpec, if_pos hx]
      intro p hp
      simp at hp
  | case2 x hne hle =>
      rw [chunkSpec, if_neg hne, if_pos hle]
      intro p hp
      simp at hp
      subst hp
      push_neg at hne
      exact ⟨⟨by omega, by omega⟩, fun h => by omega⟩
  | case3 x hne hgt hlt hM =>
      rw [chunkSpec, if_neg hne, if_neg hgt, if_pos hlt, if_pos hM]
      intro p hp
      simp at hp
      subst hp
      push_neg at hgt
      exact ⟨⟨by omega, hM⟩, fun _ => by omega⟩
  | case4 x hne hgt hlt hM =>
      push_neg at hM
      exact absurd hM (by omega)
  | case5 x hne hgt hge ih =>
      rw [chunkSpec, if_neg hne, if_neg hgt, if_neg hge]
      intro p hp
      push_neg at hgt hge
      rcases List.mem_cons.mp hp with rfl | hp2
      · refine ⟨⟨?_, ?_⟩, fun _ => ?_⟩ <;> simp <;> omega
      · have hrec := ih p hp2
        refine ⟨hrec.1, fun _ => hrec.2 (by simp; omega)⟩

inductive OciCall where
  | createMultipartUpload
  | uploadPart (partNum : Nat) (body : Bytes)
  | commitMultipartUpload (parts_to_commit : List (Nat × String))
  | abortMultipartUpload
  | putObject (body : Bytes)
  | touch
  deriving DecidableEq, Repr

structure WriteSession where
  blocksize : Nat
  maxBlock : Nat
  autocommit : Bool
  etagOf : Nat → String
  buffer : Option Bytes
  loc : Nat
  offsetSet : Bool
  mpu : Bool
  parts : Option (List (Nat × String))
  uploads : List Bytes
  putBody : Option Bytes
  calls : List OciCall

def newSession (B M : Nat) (etagOf : Nat → String) : WriteSession :=
  { blocksize := B, maxBlock := M, autocommit := true, etagOf := etagOf,
    buffer := some [], loc := 0, offsetSet := false, mpu := false,
    parts := none, uploads := [], putBody := none, calls := [] }

def abort_mpu (s : WriteSession) : WriteSession :=
  if s.mpu then { s with calls := s.calls ++ [OciCall.abortMultipartUpload], mpu := false }
  else s

def commit (s : WriteSession) : WriteSession :=
  let s1 :=
    if s.loc = 0 then
      match s.buffer with
      | some _ =>
          let s2 := abort_mpu s
          { s2 with calls := s2.calls ++ [OciCall.touch] }
      | none => s
    else if (s.parts.getD []).isEmpty then
      match s.buffer with
      | some b => { s with calls := s.calls ++ [OciCall.putObject b], putBody := some b }
      | none => s
    else { s with calls := s.calls ++ [OciCall.commitMultipartUpload (s.parts.getD [])] }
  { s1 with buffer := none }

def initiate_upload (s : WriteSession) : WriteSession :=
  if s.autocommit = true ∧ s.loc < s.blocksize then s
  else { s with parts := some [], mpu := true,
                calls := s.calls ++ [OciCall.createMultipartUpload] }

def upload_parts_append (s : WriteSession) : List Bytes → WriteSession
  | [] => s
  | p :: ps =>
      upload_parts_append
        { s with uploads := s.uploads ++ [p],
                 parts := some ((s.parts.getD []) ++
                   [((s.parts.getD []).length + 1,
                     s.etagOf ((s.parts.getD []).length + 1))]),
                 calls := s.calls ++
                   [OciCall.uploadPart ((s.parts.getD []).length + 1) p] } ps

def upload_chunk (final : Bool) (s : WriteSession) : WriteSession × Bool :=
  if s.autocommit = true ∧ final = true ∧ s.loc < s.blocksize then
    (commit s, false)
  else
    let buf := s.buffer.getD []
    let s1 := upload_parts_append s
      (chunkLoop s.blocksize s.maxBlock (buf.take s.blocksize) (buf.drop s.blocksize))
    let s2 := if s.autocommit = true ∧ final = true then commit s1 else s1
    (s2, !final)

def flushS (final : Bool) (s : WriteSession) : WriteSession :=
  if final = false ∧ (s.buffer.getD []).length < s.blocksize then s
  else
    let s1 := if s.offsetSet = false then initiate_upload { s with offsetSet := true } else s
    let r := upload_chunk final s1
    if r.2 = true then { r.1 with buffer := some [] } else r.1

def writeS (s : WriteSession) (data : Bytes) : WriteSession :=
  let s1 := { s with buffer := some (s.buffer.getD [] ++ data), loc := s.loc + data.length }
  if s1.blocksize ≤ (s1.buffer.getD []).length then flushS false s1 else s1

def closeS (s : WriteSession) : WriteSession := flushS true s

def runSession (B M : Nat) (etagOf : Nat → String) (writes : List Bytes) : WriteSession :=
  closeS (writes.foldl writeS (newSession B M etagOf))

def numberParts (etagOf : Nat → String) (n : Nat) : List (Nat × String) :=
  (List.range' 1 n).map (fun k => (k, etagOf k))

def partCallsFrom (a : Nat) (ups : List Bytes) : List OciCall :=
  List.zipWith OciCall.uploadPart (List.range' a ups.length) ups


theorem numberParts_length (etag : Nat → String) (n : Nat) :
    (numberParts etag n).length = n := by
  simp [numberParts]

theorem numberParts_map_fst (etag : Nat → String) (n : Nat) :
    (numberParts etag n).map Prod.fst = List.range' 1 n := by
  simp [numberParts, Function.comp_def]

theorem numberParts_append (etag : Nat → String) (n k : Nat) :
    numberParts etag n ++ (List.range' (n + 1) k).map (fun j => (j, etag j)) =
      numberParts etag (n + k) := by
  unfold numberParts
  rw [← List.map_append]
  congr 1
  have h := List.range'_append 1 n k 1
  simp only [Nat.one_mul] at h
  rw [Nat.add_comm 1 n] at h
  rw [h, Nat.add_comm k n]

theorem partCallsFrom_append (a : Nat) (xs ys : List Bytes) :
    partCallsFrom a xs ++ partCallsFrom (a + xs.length) ys = partCallsFrom a (xs ++ ys) := by
  unfold partCallsFrom
  rw [← List.zipWith_append _ _ _ _ _ (by simp)]
  congr 1
  have h := List.range'_append a xs.length ys.length 1
  simp only [Nat.one_mul] at h
  rw [h]
  simp [Nat.add_comm]

theorem upload_parts_append_eq (ps : List Bytes) (s : WriteSession)
    (l : List (Nat × String)) (hl : s.parts = some l) :
    upload_parts_append s ps =
      { s with uploads := s.uploads ++ ps,
               parts := some (l ++ (List.range' (l.length + 1) ps.length).map
                 (fun k => (k, s.etagOf k))),
               calls := s.calls ++ partCallsFrom (l.length + 1) ps } := by
  induction ps generalizing s l with
  | nil =>
      show s = _
      simp only [upload_parts_append, partCallsFrom, List.length_nil, List.range',
        List.zipWith, List.map_nil, List.append_nil]
      rw [← hl]
  | cons p ps ih =>
      rw [upload_parts_append]
      rw [ih _ (l ++ [(l.length + 1, s.etagOf (l.length + 1))]) (by simp [hl])]
      simp [hl, partCallsFrom, List.range'_succ, Nat.add_assoc]

theorem chunkSpec_mem_ne_nil (B M : Nat) (hB : 1 ≤ B) (buf : Bytes) :
    ∀ p ∈ chunkSpec B M buf, p ≠ [] := by
  induction buf using chunkSpec.induct B M with
  | case1 x hx =>
      rw [chunkSpec, if_pos hx]
      intro p hp
      simp at hp
  | case2 x hne hle =>
      rw [chunkSpec, if_neg hne, if_pos hle]
      intro p hp
      simp at hp
      subst hp
      push_neg at hne
      exact fun hh => hne.2 (by simp [hh])
  | case3 x hne hgt hlt hM =>
      rw [chunkSpec, if_neg hne, if_neg hgt, if_pos hlt, if_pos hM]
      intro p hp
      simp at hp
      subst hp
      push_neg at hne
      exact fun hh => hne.2 (by simp [hh])
  | case4 x hne hgt hlt hM =>
      rw [chunkSpec, if_neg hne, if_neg hgt, if_pos hlt, if_neg hM]
      intro p hp
      push_neg at hgt
      simp at hp
      rcases hp with rfl | rfl
      · exact List.ne_nil_of_length_pos (by simp; omega)
      · exact List.ne_nil_of_length_pos (by simp; omega)
  | case5 x hne hgt hge ih =>
      rw [chunkSpec, if_neg hne, if_neg hgt, if_neg hge]
      intro p hp
      push_neg at hgt
      rcases List.mem_cons.mp hp with rfl | hp2
      · exact List.ne_nil_of_length_pos (by simp; omega)
      · exact ih p hp2

structure PreInv (B M : Nat) (etag : Nat → String) (written : Bytes)
    (s : WriteSession) : Prop where
  block : s.blocksize = B
  maxb : s.maxBlock = M
  auto : s.autocommit = true
  etag_eq : s.etagOf = etag
  buf : ∃ b, s.buffer = some b ∧ s.uploads.flatten ++ b = written
  loc : s.loc = written.length
  put : s.putBody = none
  sizes : 2 * B ≤ M → ∀ p ∈ s.uploads, B ≤ p.length ∧ p.length ≤ M
  nonnil : ∀ p ∈ s.uploads, p ≠ []
  big : s.uploads ≠ [] → B ≤ written.length
  fresh : s.uploads = [] →
    s.parts = none ∧ s.calls = [] ∧ s.offsetSet = false ∧ s.mpu = false
  started : s.uploads ≠ [] →
    s.parts = some (numberParts etag s.uploads.length) ∧ s.offsetSet = true ∧
      s.mpu = true ∧
      s.calls = OciCall.createMultipartUpload :: partCallsFrom 1 s.uploads

def InvS (B M : Nat) (etag : Nat → String) (written : Bytes) (s : WriteSession) : Prop :=
  PreInv B M etag written s ∧ (s.buffer.getD []).length < B

theorem upload_chunk_false_eq (s : WriteSession) :
    upload_chunk false s =
      (upload_parts_append s (chunkLoop s.blocksize s.maxBlock
        ((s.buffer.getD []).take s.blocksize) ((s.buffer.getD []).drop s.blocksize)),
        true) := by
  simp [upload_chunk]

theorem flushS_false_of_ge (B M : Nat) (etag : Nat → String) (w : Bytes)
    (s : WriteSession) (hB : 1 ≤ B) (pre : PreInv B M etag w s)
    (hge : B ≤ (s.buffer.getD []).length) :
    InvS B M etag w (flushS false s) := by
  obtain ⟨b, hbuf, hjoin⟩ := pre.buf
  have hbg : s.buffer.getD [] = b := by rw [hbuf]; rfl
  rw [hbg] at hge
  have hbne : b ≠ [] := List.ne_nil_of_length_pos (by omega)
  have hwlen : B ≤ w.length := by
    rw [← hjoin]
    simp
    omega
  have hchunk : chunkLoop s.blocksize s.maxBlock ((s.buffer.getD []).take s.blocksize)
      ((s.buffer.getD []).drop s.blocksize) = chunkSpec B M b := by
    rw [hbg, pre.block, pre.maxb, chunkLoop_eq_chunkSpec B M hB]
  have hpsne : chunkSpec B M b ≠ [] := chunkSpec_ne_nil B M hB b hbne
  have hpsflat : (chunkSpec B M b).flatten = b := chunkSpec_flatten B M hB b
  have hpsnn : ∀ p ∈ chunkSpec B M b, p ≠ [] := chunkSpec_mem_ne_nil B M hB b
  have hpssz : 2 * B ≤ M → ∀ p ∈ chunkSpec B M b, B ≤ p.length ∧ p.length ≤ M := by
    intro hBM p hp
    have := chunkSpec_sizes B M hB hBM b p hp
    exact ⟨this.2 hge, this.1.2⟩
  have c1 : ¬ (false = false ∧ (s.buffer.getD []).length < s.blocksize) := by
    rw [hbg, pre.block]
    push_neg
    intro _
    omega
  by_cases hu : s.uploads = []
  · obtain ⟨hparts, hcalls, hoff, hmpu⟩ := pre.fresh hu
    have c2 : ¬ (s.autocommit = true ∧ s.loc < s.blocksize) := by
      rw [pre.loc, pre.block]
      push_neg
      intro _
      omega
    have hres : flushS false s =
        { blocksize := s.blocksize,
          maxBlock := s.maxBlock,
          autocommit := s.autocommit,
          etagOf := s.etagOf,
          buffer := some [],
          loc := s.loc,
          offsetSet := true,
          mpu := true,
          parts := some (numberParts s.etagOf (chunkSpec B M b).length),
          uploads := s.uploads ++ chunkSpec B M b,
          putBody := s.putBody,
          calls := (s.calls ++ [OciCall.createMultipartUpload]) ++
            partCallsFrom 1 (chunkSpec B M b) } := by
      rw [flushS, if_neg c1, if_pos hoff, initiate_upload]
      dsimp only
      rw [if_neg c2, upload_chunk_false_eq]
      dsimp only
      rw [if_pos rfl]
      rw [hchunk]
      rw [upload_parts_append_eq _ _ [] rfl]
      rfl
    rw [hres]
    constructor
    · constructor
      · exact pre.block
      · exact pre.maxb
      · exact pre.auto
      · exact pre.etag_eq
      · exact ⟨[], rfl, by
          dsimp only
          rw [hu]
          simp [hpsflat]
          rw [hu] at hjoin
          simpa using hjoin⟩
      · exact pre.loc
      · exact pre.put
      · intro hBM p hp
        dsimp only at hp
        rw [hu] at hp
        simp at hp
        exact hpssz hBM p hp
      · intro p hp
        dsimp only at hp
        rw [hu] at hp
        simp at hp
        exact hpsnn p hp
      · intro _
        exact hwlen
      · intro hup
        dsimp only at hup
        exact absurd hup (by simp [hpsne])
      · intro _
        dsimp only
        rw [hu]
        refine ⟨?_, rfl, rfl, ?_⟩
        · simp [pre.etag_eq]
        · rw [hcalls]
          simp [partCallsFrom]
    · dsimp only
      simpa using hB
  · obtain ⟨hparts, hoff, hmpu, hcalls⟩ := pre.started hu
    have hres : flushS false s =
        { blocksize := s.blocksize,
          maxBlock := s.maxBlock,
          autocommit := s.autocommit,
          etagOf := s.etagOf,
          buffer := some [],
          loc := s.loc,
          offsetSet := s.offsetSet,
          mpu := s.mpu,
          parts := some (numberParts etag s.uploads.length ++
            (List.range' ((numberParts etag s.uploads.length).length + 1)
              (chunkSpec B M b).length).map (fun k => (k, s.etagOf k))),
          uploads := s.uploads ++ chunkSpec B M b,
          putBody := s.putBody,
          calls := s.calls ++
            partCallsFrom ((numberParts etag s.uploads.length).length + 1)
              (chunkSpec B M b) } := by
      have hoffF : ¬ (s.offsetSet = false) := by rw [hoff]; simp
      rw [flushS, if_neg c1, if_neg hoffF]
      dsimp only
      rw [upload_chunk_false_eq]
      dsimp only
      rw [if_pos rfl]
      rw [hchunk]
      rw [upload_parts_append_eq _ _ (numberParts etag s.uploads.length) hparts]
    rw [hres]
    constructor
    · constructor
      · exact pre.block
      · exact pre.maxb
      · exact pre.auto
      · exact pre.etag_eq
      · refine ⟨[], rfl, ?_⟩
        dsimp only
        rw [List.flatten_append, hpsflat]
        simpa using hjoin
      · exact pre.loc
      · exact pre.put
      · intro hBM p hp
        dsimp only at hp
        rcases List.mem_append.mp hp with h | h
        · exact pre.sizes hBM p h
        · exact hpssz hBM p h
      · intro p hp
        dsimp only at hp
        rcases List.mem_append.mp hp with h | h
        · exact pre.nonnil p h
        · exact hpsnn p h
      · intro _
        exact hwlen
      · intro hup
        dsimp only at hup
        simp [hu] at hup
      · intro _
        dsimp only
        refine ⟨?_, hoff, ?_, ?_⟩
        · rw [numberParts_length, pre.etag_eq, numberParts_append]
          simp
        · exact hmpu
        · rw [hcalls, numberParts_length, List.cons_append]
          congr 1
          rw [← partCallsFrom_append 1 s.uploads (chunkSpec B M b)]
          simp [Nat.add_comm]
    · dsimp only
      simpa using hB

theorem newSession_inv (B M : Nat) (etag : Nat → String) (hB : 1 ≤ B) :
    InvS B M etag [] (newSession B M etag) := by
  refine ⟨⟨rfl, rfl, rfl, rfl, ⟨[], rfl, rfl⟩, rfl, rfl, ?_, ?_, ?_, ?_, ?_⟩, ?_⟩
  · intro _ p hp
    simp [newSession] at hp
  · intro p hp
    simp [newSession] at hp
  · intro h
    simp [newSession] at h
  · intro _
    exact ⟨rfl, rfl, rfl, rfl⟩
  · intro h
    simp [newSession] at h
  · simpa [newSession] using hB

theorem writeS_inv (B M : Nat) (etag : Nat → String) (w : Bytes) (s : WriteSession)
    (hB : 1 ≤ B) (inv : InvS B M etag w s) (d : Bytes) :
    InvS B M etag (w ++ d) (writeS s d) := by
  obtain ⟨pre, hlt⟩ := inv
  obtain ⟨b, hbuf, hjoin⟩ := pre.buf
  have hbg : s.buffer.getD [] = b := by rw [hbuf]; rfl
  have pre1 : PreInv B M etag (w ++ d)
      { s with buffer := some (s.buffer.getD [] ++ d), loc := s.loc + d.length } := by
    constructor
    · exact pre.block
    · exact pre.maxb
    · exact pre.auto
    · exact pre.etag_eq
    · refine ⟨b ++ d, by rw [hbg], ?_⟩
      dsimp only
      rw [← List.append_assoc, hjoin]
    · dsimp only
      rw [pre.loc]
      simp
    · exact pre.put
    · exact pre.sizes
    · exact pre.nonnil
    · intro h
      dsimp only at h
      have := pre.big h
      simp
      omega
    · intro h
      dsimp only at h
      exact pre.fresh h
    · intro h
      dsimp only at h
      exact pre.started h
  rw [writeS]
  dsimp only [Option.getD_some]
  by_cases hc : s.blocksize ≤ (s.buffer.getD [] ++ d).length
  · rw [if_pos hc]
    refine flushS_false_of_ge B M etag (w ++ d) _ hB pre1 ?_
    dsimp only
    rw [← pre.block]
    exact hc
  · rw [if_neg hc]
    refine ⟨pre1, ?_⟩
    dsimp only [Option.getD_some]
    rw [pre.block] at hc
    omega

theorem foldl_writeS_inv (B M : Nat) (etag : Nat → String) (hB : 1 ≤ B)
    (ws : List Bytes) : ∀ (w : Bytes) (s : WriteSession), InvS B M etag w s →
    InvS B M etag (w ++ ws.flatten) (ws.foldl writeS s) := by
  induction ws with
  | nil =>
      intro w s inv
      simpa using inv
  | cons d ws ih =>
      intro w s inv
      have h1 := writeS_inv B M etag w s hB inv d
      have h2 := ih (w ++ d) (writeS s d) h1
      simpa [List.append_assoc] using h2

theorem uploads_eq_nil_of_flatten_nil (l : List Bytes) (h : l.flatten = [])
    (hn : ∀ p ∈ l, p ≠ []) : l = [] := by
  cases l with
  | nil => rfl
  | cons a t =>
      simp [List.flatten] at h
      exact absurd h.1 (hn a (by simp))

theorem commit_zero (s : WriteSession) (b : Bytes) (hloc : s.loc = 0)
    (hbuf : s.buffer = some b) (hmpu : s.mpu = false) :
    commit s = { s with calls := s.calls ++ [OciCall.touch], buffer := none } := by
  rw [commit, if_pos hloc, hbuf]
  dsimp only
  rw [abort_mpu, if_neg (by rw [hmpu]; simp)]

theorem commit_put (s : WriteSession) (b : Bytes) (hloc : ¬ s.loc = 0)
    (hparts : s.parts = none) (hbuf : s.buffer = some b) :
    commit s =
      { s with
        calls := s.calls ++ [OciCall.putObject b],
        putBody := some b,
        buffer := none } := by
  rw [commit, if_neg hloc, if_pos (by rw [hparts]; rfl), hbuf]

theorem commit_mp (s : WriteSession) (l : List (Nat × String)) (hloc : ¬ s.loc = 0)
    (hparts : s.parts = some l) (hl : l ≠ []) :
    commit s =
      { s with
        calls := s.calls ++ [OciCall.commitMultipartUpload l],
        buffer := none } := by
  rw [commit, if_neg hloc, if_neg (by rw [hparts]; simpa using hl), hparts]
  dsimp only [Option.getD_some]

theorem upload_chunk_true_snd (s : WriteSession) : (upload_chunk true s).2 = false := by
  rw [upload_chunk]
  split
  · rfl
  · rfl

theorem upload_chunk_true_put (s : WriteSession) (hauto : s.autocommit = true)
    (hloc : s.loc < s.blocksize) : upload_chunk true s = (commit s, false) := by
  rw [upload_chunk, if_pos ⟨hauto, rfl, hloc⟩]

theorem upload_chunk_true_mp (s : WriteSession) (hauto : s.autocommit = true)
    (hloc : ¬ s.loc < s.blocksize) :
    upload_chunk true s =
      (commit (upload_parts_append s (chunkLoop s.blocksize s.maxBlock
        ((s.buffer.getD []).take s.blocksize) ((s.buffer.getD []).drop s.blocksize))),
        false) := by
  rw [upload_chunk, if_neg (fun hh => hloc hh.2.2)]
  dsimp only
  rw [if_pos ⟨hauto, rfl⟩]
  rfl

theorem flushS_true_eq (s : WriteSession) :
    flushS true s = (upload_chunk true (if s.offsetSet = false
      then initiate_upload { s with offsetSet := true } else s)).1 := by
  rw [flushS, if_neg (by simp)]
  dsimp only
  rw [upload_chunk_true_snd]
  rw [if_neg (by simp)]

theorem closeS_spec (B M : Nat) (etag : Nat → String) (w : Bytes) (s : WriteSession)
    (hB : 1 ≤ B) (inv : InvS B M etag w s) :
    (w.length = 0 →
      (closeS s).calls = [OciCall.touch] ∧ (closeS s).uploads = [] ∧
      (closeS s).putBody = none ∧ (closeS s).parts = none) ∧
    (0 < w.length → w.length < B →
      (closeS s).calls = [OciCall.putObject w] ∧ (closeS s).uploads = [] ∧
      (closeS s).putBody = some w ∧ (closeS s).parts = none) ∧
    (B ≤ w.length →
      ∃ b, s.buffer = some b ∧
        (closeS s).uploads = s.uploads ++ (if b.isEmpty then [] else [b]) ∧
        (closeS s).putBody = none ∧
        (closeS s).parts = some (numberParts etag (closeS s).uploads.length) ∧
        (closeS s).calls = OciCall.createMultipartUpload ::
          (partCallsFrom 1 (closeS s).uploads ++
            [OciCall.commitMultipartUpload
              (numberParts etag (closeS s).uploads.length)]) ∧
        (closeS s).uploads.flatten = w) := by
  obtain ⟨pre, hlt⟩ := inv
  obtain ⟨b, hbuf, hjoin⟩ := pre.buf
  have hbg : s.buffer.getD [] = b := by rw [hbuf]; rfl
  rw [hbg] at hlt
  refine ⟨?_, ?_, ?_⟩
  · intro hw0
    have hwnil : w = [] := List.length_eq_zero.mp hw0
    subst hwnil
    have hbnil : b = [] := (List.append_eq_nil.mp hjoin).2
    have hups : s.uploads = [] := by
      refine uploads_eq_nil_of_flatten_nil _ ?_ pre.nonnil
      have := hjoin
      rw [hbnil] at this
      simpa using this
    obtain ⟨hparts, hcalls, hoff, hmpu⟩ := pre.fresh hups
    have hloc0 : s.loc = 0 := by
      rw [pre.loc]
      rfl
    have hres : closeS s =
        { s with
          offsetSet := true,
          calls := s.calls ++ [OciCall.touch],
          buffer := none } := by
      rw [closeS, flushS_true_eq, if_pos hoff, initiate_upload]
      dsimp only
      rw [if_pos ⟨pre.auto, by rw [hloc0, pre.block]; omega⟩]
      rw [upload_chunk_true_put { s with offsetSet := true } pre.auto
        (by show s.loc < s.blocksize
            rw [hloc0, pre.block]
            omega)]
      rw [commit_zero { s with offsetSet := true } b hloc0 hbuf hmpu]
    rw [hres]
    dsimp only
    rw [hcalls, hparts, hups]
    exact ⟨rfl, rfl, pre.put, rfl⟩
  · intro hw0 hwB
    have hups : s.uploads = [] := by
      by_contra h
      have := pre.big h
      omega
    obtain ⟨hparts, hcalls, hoff, hmpu⟩ := pre.fresh hups
    have hbw : b = w := by
      rw [hups] at hjoin
      simpa using hjoin
    have hlocw : s.loc = w.length := pre.loc
    have hres : closeS s =
        { s with
          offsetSet := true,
          calls := s.calls ++ [OciCall.putObject b],
          putBody := some b,
          buffer := none } := by
      rw [closeS, flushS_true_eq, if_pos hoff, initiate_upload]
      dsimp only
      rw [if_pos ⟨pre.auto, by rw [hlocw, pre.block]; omega⟩]
      rw [upload_chunk_true_put { s with offsetSet := true } pre.auto
        (by show s.loc < s.blocksize
            rw [hlocw, pre.block]
            omega)]
      rw [commit_put { s with offsetSet := true } b
        (by show ¬ s.loc = 0
            rw [hlocw]
            omega) hparts hbuf]
    rw [hres]
    dsimp only
    rw [hcalls, hparts, hups, hbw]
    exact ⟨rfl, rfl, rfl, rfl⟩
  · intro hwB
    have hups : s.uploads ≠ [] := by
      intro h
      rw [h] at hjoin
      simp at hjoin
      rw [hjoin] at hlt
      omega
    obtain ⟨hparts, hoff, hmpu, hcalls⟩ := pre.started hups
    have hchunk : chunkLoop s.blocksize s.maxBlock
        ((s.buffer.getD []).take s.blocksize) ((s.buffer.getD []).drop s.blocksize) =
        chunkSpec B M b := by
      rw [hbg, pre.block, pre.maxb, chunkLoop_eq_chunkSpec B M hB]
    have hspec : chunkSpec B M b = if b.isEmpty then [] else [b] := by
      by_cases hbe : b = []
      · rw [hbe]
        simp [chunkSpec_nil]
      · rw [if_neg (by simpa using hbe)]
        exact chunkSpec_small B M b hbe (by omega)
    have hn1 : 1 ≤ s.uploads.length := by
      cases hu : s.uploads with
      | nil => exact absurd hu hups
      | cons a t => simp [hu]
    have hpartsne : numberParts etag s.uploads.length ++
        (List.range' ((numberParts etag s.uploads.length).length + 1)
          (if b.isEmpty then ([] : List Bytes) else [b]).length).map
          (fun k => (k, s.etagOf k)) ≠ [] := by
      intro hcontra
      have h2 := (List.append_eq_nil.mp hcontra).1
      have h3 := congrArg List.length h2
      rw [numberParts_length] at h3
      simp at h3
      exact hups h3
    have hres : closeS s =
        { s with
          parts := some (numberParts etag s.uploads.length ++
            (List.range' ((numberParts etag s.uploads.length).length + 1)
              (if b.isEmpty then ([] : List Bytes) else [b]).length).map
              (fun k => (k, s.etagOf k))),
          uploads := s.uploads ++ (if b.isEmpty then [] else [b]),
          calls := (s.calls ++
            partCallsFrom ((numberParts etag s.uploads.length).length + 1)
              (if b.isEmpty then [] else [b])) ++
            [OciCall.commitMultipartUpload (numberParts etag s.uploads.length ++
              (List.range' ((numberParts etag s.uploads.length).length + 1)
                (if b.isEmpty then ([] : List Bytes) else [b]).length).map
                (fun k => (k, s.etagOf k)))],
          buffer := none } := by
      rw [closeS, flushS_true_eq, if_neg (by rw [hoff]; simp)]
      rw [upload_chunk_true_mp _ pre.auto (by rw [pre.loc, pre.block]; omega)]
      dsimp only
      rw [hchunk, hspec]
      rw [upload_parts_append_eq _ _ (numberParts etag s.uploads.length) hparts]
      rw [commit_mp _ _ (by rw [pre.loc]; omega) rfl hpartsne]
    have hEflat : (if b.isEmpty then ([] : List Bytes) else [b]).flatten = b := by
      by_cases hbe : b = []
      · simp [hbe]
      · rw [if_neg (by simpa using hbe)]
        simp
    rw [hres]
    dsimp only
    refine ⟨b, hbuf, rfl, pre.put, ?_, ?_, ?_⟩
    · rw [numberParts_length, pre.etag_eq, numberParts_append]
      simp
    · rw [hcalls, numberParts_length, pre.etag_eq, numberParts_append,
        ← partCallsFrom_append 1 s.uploads]
      simp [Nat.add_comm]
    · rw [List.flatten_append, hEflat]
      exact hjoin

theorem run_inv (B M : Nat) (etag : Nat → String) (hB : 1 ≤ B) (ws : List Bytes) :
    InvS B M etag ws.flatten (ws.foldl writeS (newSession B M etag)) := by
  have h := foldl_writeS_inv B M etag hB ws [] (newSession B M etag)
    (newSession_inv B M etag hB)
  simpa using h

/-- Claim C1, counterexample: the spec promises that every part sent, except
possibly the single part of a one-part session, has size at least the minimum
part size m. With blocksize 5 and maximum 100, writing 5 bytes and then 1 byte
flushes the first 5 bytes as part 1 and closes with a final 1-byte part 2: the
session has two parts and the last is below the minimum, while concatenation
still reproduces the written bytes. -/
theorem chunked_write_min_size_counterexample :
    (runSession 5 100 (fun _ => "e") [[1,2,3,4,5],[6]]).uploads.flatten = [1,2,3,4,5,6] ∧
    ¬ ((runSession 5 100 (fun _ => "e") [[1,2,3,4,5],[6]]).uploads.length ≤ 1 ∨
       ∀ p ∈ (runSession 5 100 (fun _ => "e") [[1,2,3,4,5],[6]]).uploads,
         5 ≤ p.length ∧ p.length ≤ 100) := by
  have h : (runSession 5 100 (fun _ => "e") [[1,2,3,4,5],[6]]).uploads =
      [[1,2,3,4,5],[6]] := by
    simp [runSession, writeS, flushS, closeS, initiate_upload, upload_chunk,
      upload_parts_append, commit, abort_mpu, newSession, chunkLoop]
  rw [h]
  refine ⟨rfl, ?_⟩
  intro hcontra
  rcases hcontra with h1 | h2
  · simp at h1
  · have h6 := h2 [6] (by simp)
    simp at h6

/-- Claim C1, amended: for any write session with part size B at least 1 and
maximum part size M at least 2B, every uploaded part except possibly the last
has size between B and M, every part (the last included) has size between 1
and M, the uploaded parts followed by the one-shot put body concatenate back
to exactly the written bytes, and the part numbers of the accumulated parts
list are 1, 2, ... in ascending order. -/
theorem chunked_write_sizes_amended (B M : Nat) (etag : Nat → String) (ws : List Bytes)
    (hB : 1 ≤ B) (hBM : 2 * B ≤ M) :
    (∀ p ∈ (runSession B M etag ws).uploads.dropLast, B ≤ p.length ∧ p.length ≤ M) ∧
    (∀ p ∈ (runSession B M etag ws).uploads, 1 ≤ p.length ∧ p.length ≤ M) ∧
    (runSession B M etag ws).uploads.flatten ++
      ((runSession B M etag ws).putBody.getD []) = ws.flatten ∧
    ((runSession B M etag ws).parts.getD []).map Prod.fst =
      List.range' 1 (runSession B M etag ws).uploads.length := by
  have hinv := run_inv B M etag hB ws
  have hcs := closeS_spec B M etag ws.flatten (ws.foldl writeS (newSession B M etag))
    hB hinv
  obtain ⟨pre, hlt⟩ := hinv
  have hrs : runSession B M etag ws = closeS (ws.foldl writeS (newSession B M etag)) :=
    rfl
  rw [hrs]
  rcases Nat.lt_or_ge ws.flatten.length B with hsmall | hbig
  · rcases Nat.eq_zero_or_pos ws.flatten.length with h0 | hpos
    · obtain ⟨hc, hu, hp, hq⟩ := hcs.1 h0
      rw [hu, hp, hq]
      have hwnil : ws.flatten = [] := List.length_eq_zero.mp h0
      exact ⟨by simp, by simp, by simp [hwnil], by simp⟩
    · obtain ⟨hc, hu, hp, hq⟩ := hcs.2.1 hpos hsmall
      rw [hu, hp, hq]
      exact ⟨by simp, by simp, by simp, by simp⟩
  · obtain ⟨b, hbuf, hu, hput, hpr, hcalls, hflat⟩ := hcs.2.2 hbig
    have hbB : b.length < B := by
      rw [hbuf] at hlt
      simpa using hlt
    refine ⟨?_, ?_, ?_, ?_⟩
    · rw [hu]
      by_cases hbe : b.isEmpty
      · rw [if_pos hbe, List.append_nil]
        intro p hp
        exact pre.sizes hBM p ((List.dropLast_sublist _).subset hp)
      · rw [if_neg hbe, List.dropLast_concat]
        intro p hp
        exact pre.sizes hBM p hp
    · rw [hu]
      intro p hp
      rcases List.mem_append.mp hp with hmem | hmem
      · have hsz := pre.sizes hBM p hmem
        exact ⟨by omega, hsz.2⟩
      · by_cases hbe : b.isEmpty
        · rw [if_pos hbe] at hmem
          simp at hmem
        · rw [if_neg hbe] at hmem
          simp at hmem
          subst hmem
          have hbne : p ≠ [] := fun hh => hbe (by simp [hh])
          have hpos := List.length_pos.mpr hbne
          exact ⟨by omega, by omega⟩
    · rw [hput]
      simpa using hflat
    · rw [hpr]
      simp only [Option.getD_some]
      exact numberParts_map_fst etag _

theorem chunked_write_sizes_amended_witness :
    1 ≤ 5 ∧ 2 * 5 ≤ 100 ∧
    ((∀ p ∈ (runSession 5 100 (fun _ => "e") [[1,2,3,4,5],[6]]).uploads.dropLast,
        5 ≤ p.length ∧ p.length ≤ 100) ∧
     (∀ p ∈ (runSession 5 100 (fun _ => "e") [[1,2,3,4,5],[6]]).uploads,
        1 ≤ p.length ∧ p.length ≤ 100) ∧
     (runSession 5 100 (fun _ => "e") [[1,2,3,4,5],[6]]).uploads.flatten ++
       ((runSession 5 100 (fun _ => "e") [[1,2,3,4,5],[6]]).putBody.getD []) =
         ([[1,2,3,4,5],[6]] : List Bytes).flatten ∧
     ((runSession 5 100 (fun _ => "e") [[1,2,3,4,5],[6]]).parts.getD []).map Prod.fst =
       List.range' 1 (runSession 5 100 (fun _ => "e") [[1,2,3,4,5],[6]]).uploads.length) :=
  ⟨by decide, by decide,
    chunked_write_sizes_amended 5 100 (fun _ => "e") [[1,2,3,4,5],[6]]
      (by decide) (by decide)⟩

/-- Claim C2: at commit time, a session that wrote zero bytes ends with only a
touch call (empty object), no multipart commit, no put body and no parts list;
a session that wrote fewer than blocksize bytes ends with a single whole-object
put of exactly the written bytes and no parts list; a session that wrote at
least blocksize bytes ends with createMultipartUpload, the part uploads, and a
commitMultipartUpload of the accumulated partNum/etag list whose part numbers
are ascending 1, 2, ...; and commit on a session with zero bytes written and
an open multipart upload aborts that upload before touching the empty object. -/
theorem commit_finalization (B M : Nat) (etag : Nat → String) (ws : List Bytes)
    (hB : 1 ≤ B) :
    (ws.flatten.length = 0 →
      (runSession B M etag ws).calls = [OciCall.touch] ∧
      (runSession B M etag ws).parts = none ∧
      (runSession B M etag ws).putBody = none) ∧
    (0 < ws.flatten.length → ws.flatten.length < B →
      (runSession B M etag ws).calls = [OciCall.putObject ws.flatten] ∧
      (runSession B M etag ws).parts = none) ∧
    (B ≤ ws.flatten.length →
      (runSession B M etag ws).calls =
        OciCall.createMultipartUpload ::
          (partCallsFrom 1 (runSession B M etag ws).uploads ++
            [OciCall.commitMultipartUpload
              (numberParts etag (runSession B M etag ws).uploads.length)]) ∧
      (numberParts etag (runSession B M etag ws).uploads.length).map Prod.fst =
        List.range' 1 (runSession B M etag ws).uploads.length) ∧
    (∀ s : WriteSession, s.loc = 0 → (∃ bb, s.buffer = some bb) → s.mpu = true →
      (commit s).calls = s.calls ++ [OciCall.abortMultipartUpload, OciCall.touch]) := by
  have hinv := run_inv B M etag hB ws
  have hcs := closeS_spec B M etag ws.flatten (ws.foldl writeS (newSession B M etag))
    hB hinv
  have hrs : runSession B M etag ws = closeS (ws.foldl writeS (newSession B M etag)) :=
    rfl
  refine ⟨?_, ?_, ?_, ?_⟩
  · intro h0
    obtain ⟨hc, hu, hp, hq⟩ := hcs.1 h0
    rw [hrs]
    exact ⟨hc, hq, hp⟩
  · intro hpos hsmall
    obtain ⟨hc, hu, hp, hq⟩ := hcs.2.1 hpos hsmall
    rw [hrs]
    exact ⟨hc, hq⟩
  · intro hbig
    obtain ⟨b, hbuf, hu, hput, hpr, hcalls, hflat⟩ := hcs.2.2 hbig
    rw [hrs]
    exact ⟨hcalls, numberParts_map_fst etag _⟩
  · intro s hloc hbuf hmpu
    obtain ⟨bb, hbb⟩ := hbuf
    simp [commit, hloc, hbb, abort_mpu, hmpu]

theorem commit_finalization_witness :
    1 ≤ 5 ∧
    ((([[1,2,3,4,5],[6]] : List Bytes).flatten.length = 0 →
      (runSession 5 100 (fun _ => "g") [[1,2,3,4,5],[6]]).calls = [OciCall.touch] ∧
      (runSession 5 100 (fun _ => "g") [[1,2,3,4,5],[6]]).parts = none ∧
      (runSession 5 100 (fun _ => "g") [[1,2,3,4,5],[6]]).putBody = none) ∧
    (0 < ([[1,2,3,4,5],[6]] : List Bytes).flatten.length →
      ([[1,2,3,4,5],[6]] : List Bytes).flatten.length < 5 →
      (runSession 5 100 (fun _ => "g") [[1,2,3,4,5],[6]]).calls =
        [OciCall.putObject ([[1,2,3,4,5],[6]] : List Bytes).flatten] ∧
      (runSession 5 100 (fun _ => "g") [[1,2,3,4,5],[6]]).parts = none) ∧
    (5 ≤ ([[1,2,3,4,5],[6]] : List Bytes).flatten.length →
      (runSession 5 100 (fun _ => "g") [[1,2,3,4,5],[6]]).calls =
        OciCall.createMultipartUpload ::
          (partCallsFrom 1 (runSession 5 100 (fun _ => "g") [[1,2,3,4,5],[6]]).uploads ++
            [OciCall.commitMultipartUpload
              (numberParts (fun _ => "g")
                (runSession 5 100 (fun _ => "g") [[1,2,3,4,5],[6]]).uploads.length)]) ∧
      (numberParts (fun _ => "g")
          (runSession 5 100 (fun _ => "g") [[1,2,3,4,5],[6]]).uploads.length).map
            Prod.fst =
        List.range' 1 (runSession 5 100 (fun _ => "g") [[1,2,3,4,5],[6]]).uploads.length) ∧
    (∀ s : WriteSession, s.loc = 0 → (∃ bb, s.buffer = some bb) → s.mpu = true →
      (commit s).calls = s.calls ++ [OciCall.abortMultipartUpload, OciCall.touch])) :=
  ⟨by decide, commit_finalization 5 100 (fun _ => "g") [[1,2,3,4,5],[6]] (by decide)⟩

def OCIFile_retries : Nat := 5

def MINIMUM_BLOCK_SIZE : Nat := 5 * 2 ^ 20

def MAXIMUM_BLOCK_SIZE : Nat := 5 * 2 ^ 30

def attempt_loop (failsOn : Nat → Bool) : List Nat → Nat → Nat × Bool
  | [], used => (used, false)
  | a :: _, used =>
      if failsOn a then (used + 1, false)
      else (used + 1, true)

def attempt_loop_spec (failsOn : Nat → Bool) : List Nat → Nat → Nat × Bool
  | [], used => (used, false)
  | a :: rest, used =>
      if failsOn a then attempt_loop_spec failsOn rest (used + 1)
      else (used + 1, true)

/-- Claim C3: the retry loop of `OCIFile._upload_chunk` is dead code. The loop
body either breaks on success or raises on failure; since the translated
ServiceError is re-raised as IOError inside the except handler, the first
failed attempt aborts the whole upload and the remaining retries attempts are
never made. `attempt_loop` is translated from the source loop (each branch of
the body leaves the loop), `attempt_loop_spec` is the loop the spec describes
(a failed attempt falls through to the next iteration): on a fault oracle that
fails only the first attempt, the source loop gives up after 1 attempt while
the spec loop succeeds on attempt 2, and in general the source loop never
makes more than one attempt whatever the budget. -/
theorem upload_retry_budget_code_bug :
    OCIFile_retries = 5 ∧
    attempt_loop (fun i => decide (i = 0)) (List.range (OCIFile_retries + 1)) 0 =
      (1, false) ∧
    attempt_loop_spec (fun i => decide (i = 0)) (List.range (OCIFile_retries + 1)) 0 =
      (2, true) ∧
    (∀ (failsOn : Nat → Bool) (attempts : List Nat) (used : Nat),
      (attempt_loop failsOn attempts used).1 ≤ used + 1) := by
  refine ⟨rfl, by decide, by decide, ?_⟩
  intro failsOn attempts used
  cases attempts with
  | nil => simp [attempt_loop]
  | cons a t =>
      rw [attempt_loop]
      split
      · simp
      · simp

end Ocifs
